import Mathlib

/-!
Verification of the `include_dir` storage backend
(`src/services/fs/serve_dir/include_dir.rs`): a static-content backend that
serves files out of an immutable, compile-time-embedded directory tree.

The embedding is shallow: the asynchronous wrappers (`BoxFuture`, `Poll`) are
stripped because every operation resolves synchronously on first poll; each
operation becomes a pure Lean function over explicit state.  Machine integers
(`usize`, `u64`, `i64`) are modelled as `Nat`/`Int` with the casts and checked
arithmetic of the source made explicit, parametrised by the pointer width `w`
of the target (so `usize` values live in `[0, 2^w)` and the truncating
`as usize` / `as isize` casts are modelled faithfully).
-/

namespace TowerHttp.IncludeDir

/-- Modelled from the spec (the embedded-resource index is an external
collaborator, the `include_dir` crate): the metadata a packed file optionally
carries; only the modification timestamp is consumed by this backend.
Timestamps are opaque here, represented by a `Nat`. -/
structure FileMetadata where
  modified : Nat
deriving DecidableEq

/-- Modelled from the spec: a packed file entry of the embedded tree,
exposing its path, an immutable byte-content view and optional metadata. -/
structure FileEntry where
  path : String
  contents : List Nat
  metadata : Option FileMetadata
deriving DecidableEq

/-- Modelled from the spec: `include_dir::DirEntry` — each node of the
embedded tree is either a file or a directory.  Only the path of a directory
is consumed by this backend, so directories are represented by their path. -/
inductive DirEntry where
  | file (f : FileEntry)
  | dir (p : String)
deriving DecidableEq

def DirEntry.path : DirEntry → String
  | .file f => f.path
  | .dir p => p

def DirEntry.as_file : DirEntry → Option FileEntry
  | .file f => some f
  | .dir _ => none

def DirEntry.as_dir : DirEntry → Option String
  | .file _ => none
  | .dir p => some p

/-- Modelled from the spec: the immutable ResourceIndex, a path-keyed
collection of entries, built once and never mutated. -/
structure Dir where
  entries : List DirEntry
deriving DecidableEq

/-- Modelled from the spec boundary `lookup_entry(path) -> Option<entry>`:
pure, synchronous lookup of any entry (file or directory) by path. -/
def Dir.get_entry (d : Dir) (p : String) : Option DirEntry :=
  d.entries.find? (fun e => e.path == p)

/-- Modelled from the spec boundary `lookup_file(path) -> Option<FileEntry>`:
resolves `p` to a file entry; misses and directories both yield `none`. -/
def Dir.get_file (d : Dir) (p : String) : Option FileEntry :=
  match d.get_entry p with
  | some (.file f) => some f
  | _ => none

/-- The kinds of `std::io::Error` this backend constructs. -/
inductive ErrorKind where
  | NotFound
  | InvalidInput
deriving DecidableEq

/-- An `std::io::Error`: a kind plus its message. -/
structure IoError where
  kind : ErrorKind
  msg : String
deriving DecidableEq

/-- `IncludeDirBackend`: a cloneable handle referencing the embedded tree. -/
structure IncludeDirBackend where
  inner : Dir
deriving DecidableEq

/-- `IncludeDirFile`: an open file handle — a cursor `index` (a `usize`,
initialised to 0 by `open`) plus the resolved file entry. -/
structure IncludeDirFile where
  index : Nat
  inner : FileEntry
deriving DecidableEq

/-- `IncludeDirMetadata`: a snapshot wrapping one resolved entry. -/
structure IncludeDirMetadata where
  entry : DirEntry
deriving DecidableEq

/-- `IncludeDirBackend::open`: looks the path up with `get_file`; on a hit
returns a handle with cursor 0 over that file, otherwise a `NotFound` error
with message `"{path} is not a file."`. -/
def IncludeDirBackend.«open» (b : IncludeDirBackend) (path : String) :
    Except IoError IncludeDirFile :=
  match b.inner.get_file path with
  | some f => .ok { index := 0, inner := f }
  | none => .error { kind := .NotFound, msg := path ++ " is not a file." }

/-- `IncludeDirBackend::metadata`: looks the path up with `get_entry`; on a
hit wraps the entry in a snapshot, otherwise a `NotFound` error with message
`"{path} not found."`. -/
def IncludeDirBackend.metadata (b : IncludeDirBackend) (path : String) :
    Except IoError IncludeDirMetadata :=
  match b.inner.get_entry path with
  | some e => .ok { entry := e }
  | none => .error { kind := .NotFound, msg := path ++ " not found." }

/-- `IncludeDirFile::poll_read`: the destination `ReadBuf` is modelled by its
remaining capacity `remaining`; the result is the list of bytes copied plus
the updated handle.  If the cursor is at or past end-of-content, zero bytes
are filled and the handle is unchanged; otherwise the slice
`contents[index..]` is read, which copies `min(remaining, len)` bytes, and
`index` advances by the number of bytes filled. -/
def IncludeDirFile.poll_read (h : IncludeDirFile) (remaining : Nat) :
    List Nat × IncludeDirFile :=
  let data := h.inner.contents
  if h.index ≥ data.length then ([], h)
  else
    let filled := (data.drop h.index).take remaining
    (filled, { h with index := h.index + filled.length })

/-- `SeekFrom` of `std::io`: `Start` carries a `u64`, `End` and `Current`
carry an `i64`. -/
inductive SeekFrom where
  | Start (s : Nat)
  | End (e : Int)
  | Current (c : Int)
deriving DecidableEq

/-- The truncating `as usize` cast on a `w`-bit target. -/
def castUsize (w : Nat) (x : Nat) : Nat := x % 2 ^ w

/-- The truncating `i64 as isize` cast on a `w`-bit target: keep the low `w`
bits and reinterpret them as a two's-complement signed value. -/
def castIsize (w : Nat) (x : Int) : Int :=
  if x % (2 ^ w) < 2 ^ (w - 1) then x % (2 ^ w) else x % (2 ^ w) - 2 ^ w

/-- `usize::checked_add_signed` on a `w`-bit target: `some` exactly when the
exact sum lies in `[0, 2^w)`. -/
def checked_add_signed (w : Nat) (n : Nat) (d : Int) : Option Nat :=
  if 0 ≤ (n : Int) + d ∧ (n : Int) + d < 2 ^ w then some ((n : Int) + d).toNat
  else none

/-- The error built by both fallible seek arms. -/
def invalidSeekError : IoError :=
  { kind := .InvalidInput, msg := "invalid seek to a negative or overflowing position" }

/-- `IncludeDirFile::start_seek` on a `w`-bit target.  Returns the handle
after the call (the cursor is assigned only when the arithmetic succeeds —
on an error the `?` operator returns before the assignment) together with the
`io::Result<()>`.  `Start` assigns `start as usize` unconditionally; `End`
and `Current` use `checked_add_signed` over the truncated offset and fail
with `invalidSeekError`. -/
def IncludeDirFile.start_seek (w : Nat) (h : IncludeDirFile) (position : SeekFrom) :
    IncludeDirFile × Except IoError Unit :=
  match position with
  | .Start s => ({ h with index := castUsize w s }, .ok ())
  | .End e =>
    match checked_add_signed w h.inner.contents.length (castIsize w e) with
    | some i => ({ h with index := i }, .ok ())
    | none => (h, .error invalidSeekError)
  | .Current c =>
    match checked_add_signed w h.index (castIsize w c) with
    | some i => ({ h with index := i }, .ok ())
    | none => (h, .error invalidSeekError)

/-- `IncludeDirFile::poll_complete`: reports the current cursor immediately. -/
def IncludeDirFile.poll_complete (h : IncludeDirFile) : Except IoError Nat :=
  .ok h.index

/-- `<IncludeDirFile as File>::metadata`: re-wraps the handle's owned file as
a `File`-kind entry, always succeeding. -/
def IncludeDirFile.metadata (h : IncludeDirFile) : Except IoError IncludeDirMetadata :=
  .ok { entry := .file h.inner }

/-- `<IncludeDirMetadata as Metadata>::is_dir`. -/
def IncludeDirMetadata.is_dir (m : IncludeDirMetadata) : Bool :=
  m.entry.as_dir.isSome

/-- `<IncludeDirMetadata as Metadata>::modified`: the stored timestamp when
the entry is a file carrying metadata, otherwise `NotFound` with message
`"cannot access metadata for {path}"`. -/
def IncludeDirMetadata.modified (m : IncludeDirMetadata) : Except IoError Nat :=
  match m.entry.as_file.bind (fun f => f.metadata) with
  | some md => .ok md.modified
  | none =>
    .error { kind := .NotFound, msg := "cannot access metadata for " ++ m.entry.path }

/-- `<IncludeDirMetadata as Metadata>::len`: the byte-content length for
files, `0` for directories (`map_or(0, ..)` in the source). -/
def IncludeDirMetadata.len (m : IncludeDirMetadata) : Nat :=
  match m.entry.as_file with
  | some f => f.contents.length
  | none => 0

/-- Consumer-side read loop: drive `poll_read` with a buffer of capacity
`cap` until a read fills zero bytes (end-of-stream), concatenating the
chunks.  `fuel` bounds the number of reads. -/
def IncludeDirFile.read_to_end (fuel cap : Nat) (h : IncludeDirFile) : List Nat :=
  match fuel with
  | 0 => []
  | fuel' + 1 =>
    if (h.poll_read cap).1.isEmpty then []
    else (h.poll_read cap).1 ++ IncludeDirFile.read_to_end fuel' cap (h.poll_read cap).2

/-- A concrete packed file used by the closed witness statements. -/
def exFile : FileEntry :=
  { path := "a", contents := [104, 105], metadata := some { modified := 1700 } }

/-- A concrete packed file without metadata, used by witnesses. -/
def exFileNoMeta : FileEntry :=
  { path := "c", contents := [1, 2, 3, 4], metadata := none }

/-- A concrete embedded tree: one file, one directory. -/
def exTree : Dir := { entries := [.file exFile, .dir "b", .file exFileNoMeta] }

/-- A backend over the concrete tree. -/
def exBackend : IncludeDirBackend := { inner := exTree }

/-- A freshly opened handle over `exFileNoMeta`. -/
def exHandle : IncludeDirFile := { index := 0, inner := exFileNoMeta }

/-- C1: `open(p)` succeeds exactly when `p` resolves to a file entry in the
index; on success the handle has cursor 0 over that file's content; when `p`
is missing or resolves to a directory, it fails with a `NotFound` error whose
message names `p` and states it is not a file. -/
theorem open_spec (b : IncludeDirBackend) (p : String) :
    ((∃ fh, b.«open» p = .ok fh) ↔ ∃ f, b.inner.get_entry p = some (.file f)) ∧
    (∀ f, b.inner.get_entry p = some (.file f) →
      b.«open» p = .ok { index := 0, inner := f }) ∧
    (b.inner.get_entry p = none →
      b.«open» p = .error { kind := .NotFound, msg := p ++ " is not a file." }) ∧
    (∀ q, b.inner.get_entry p = some (.dir q) →
      b.«open» p = .error { kind := .NotFound, msg := p ++ " is not a file." }) := by
  cases hE : b.inner.get_entry p with
  | none => simp [IncludeDirBackend.«open», Dir.get_file, hE]
  | some e =>
    cases e with
    | file f => simp [IncludeDirBackend.«open», Dir.get_file, hE]
    | dir q => simp [IncludeDirBackend.«open», Dir.get_file, hE]

/-- C1 witness: opening the packed file `"a"` of the concrete tree yields a
handle with cursor 0 over its content. -/
theorem open_spec_witness :
    exBackend.«open» "a" = .ok { index := 0, inner := exFile } :=
  (open_spec exBackend "a").2.1 exFile (by decide)

/-- C4: the backend's `metadata(p)` succeeds with a snapshot of the resolved
entry exactly when `p` resolves to some entry (file or directory); otherwise
it fails with a `NotFound` error naming `p` as not found. -/
theorem metadata_lookup_spec (b : IncludeDirBackend) (p : String) :
    ((∃ m, b.metadata p = .ok m) ↔ ∃ e, b.inner.get_entry p = some e) ∧
    (∀ e, b.inner.get_entry p = some e → b.metadata p = .ok { entry := e }) ∧
    (b.inner.get_entry p = none →
      b.metadata p = .error { kind := .NotFound, msg := p ++ " not found." }) := by
  cases hE : b.inner.get_entry p with
  | none => simp [IncludeDirBackend.metadata, hE]
  | some e => simp [IncludeDirBackend.metadata, hE]

/-- C4 witness: the directory `"b"` resolves, so `metadata` succeeds with a
snapshot of the directory entry. -/
theorem metadata_lookup_spec_witness :
    exBackend.metadata "b" = .ok { entry := .dir "b" } :=
  (metadata_lookup_spec exBackend "b").2.1 (.dir "b") (by decide)

/-- C5: on a resolved snapshot, `is_dir` holds exactly for directories;
`modified` returns the stored timestamp exactly when the entry is a file
carrying one and otherwise fails with `NotFound` naming the entry's path;
`len` is the byte-content length for files and 0 for directories. -/
theorem metadata_view_spec (m : IncludeDirMetadata) :
    (m.is_dir = true ↔ ∃ p, m.entry = .dir p) ∧
    (∀ f md, m.entry = .file f → f.metadata = some md →
      m.modified = .ok md.modified) ∧
    (∀ f, m.entry = .file f → f.metadata = none →
      m.modified = .error { kind := .NotFound,
                            msg := "cannot access metadata for " ++ f.path }) ∧
    (∀ p, m.entry = .dir p →
      m.modified = .error { kind := .NotFound,
                            msg := "cannot access metadata for " ++ p }) ∧
    (∀ f, m.entry = .file f → m.len = f.contents.length) ∧
    (∀ p, m.entry = .dir p → m.len = 0) := by
  obtain ⟨e⟩ := m
  cases e with
  | file f =>
    cases hmd : f.metadata with
    | none =>
      simp [IncludeDirMetadata.is_dir, IncludeDirMetadata.modified,
        IncludeDirMetadata.len, DirEntry.as_dir, DirEntry.as_file, DirEntry.path, hmd]
      rintro f1 md rfl h2
      rw [hmd] at h2
      exact Option.noConfusion h2
    | some md =>
      simp [IncludeDirMetadata.is_dir, IncludeDirMetadata.modified,
        IncludeDirMetadata.len, DirEntry.as_dir, DirEntry.as_file, DirEntry.path, hmd]
      rintro f1 md1 rfl h2
      rw [hmd] at h2
      exact congrArg FileMetadata.modified (Option.some.inj h2)
  | dir p =>
    simp [IncludeDirMetadata.is_dir, IncludeDirMetadata.modified,
      IncludeDirMetadata.len, DirEntry.as_dir, DirEntry.as_file, DirEntry.path]

/-- C5 witness: the snapshot of the directory `"b"` fails the `modified`
query with a `NotFound` error naming the directory's path. -/
theorem metadata_view_spec_witness :
    IncludeDirMetadata.modified { entry := .dir "b" } =
      .error { kind := .NotFound, msg := "cannot access metadata for " ++ "b" } :=
  (metadata_view_spec { entry := .dir "b" }).2.2.2.1 "b" rfl

/-- C2: one `poll_read` over a buffer with remaining capacity `cap` fills
zero bytes and leaves the handle unchanged when the cursor is at or past
end-of-content; otherwise it copies exactly `min cap (L - index)` bytes of
the content starting at offset `index` — short only when the buffer capacity
is the limit — and advances `index` by exactly that count. -/
theorem poll_read_spec (h : IncludeDirFile) (cap : Nat) :
    (h.inner.contents.length ≤ h.index → h.poll_read cap = ([], h)) ∧
    (h.index < h.inner.contents.length →
      (h.poll_read cap).1 = (h.inner.contents.drop h.index).take cap ∧
      (h.poll_read cap).1.length = min cap (h.inner.contents.length - h.index) ∧
      (h.poll_read cap).2.inner = h.inner ∧
      (h.poll_read cap).2.index =
        h.index + min cap (h.inner.contents.length - h.index)) := by
  constructor
  · intro hge
    simp [IncludeDirFile.poll_read, hge]
  · intro hlt
    have hnot : ¬h.inner.contents.length ≤ h.index := Nat.not_le.mpr hlt
    simp [IncludeDirFile.poll_read, hnot, List.length_take, List.length_drop]

/-- C2 witness: on a fresh handle over 4 bytes, a capacity-2 read copies the
first 2 bytes and advances the cursor to 2. -/
theorem poll_read_spec_witness :
    (exHandle.poll_read 2).1 = (exHandle.inner.contents.drop exHandle.index).take 2 ∧
    (exHandle.poll_read 2).1.length =
      min 2 (exHandle.inner.contents.length - exHandle.index) ∧
    (exHandle.poll_read 2).2.inner = exHandle.inner ∧
    (exHandle.poll_read 2).2.index =
      exHandle.index + min 2 (exHandle.inner.contents.length - exHandle.index) :=
  (poll_read_spec exHandle 2).2 (by decide)

/-- On a 64-bit target the `u64 as usize` cast preserves the value. -/
lemma castUsize_64 (x : Nat) (hx : x < 2 ^ 64) : castUsize 64 x = x :=
  Nat.mod_eq_of_lt hx

/-- On a 64-bit target the `i64 as isize` cast preserves every `i64` value. -/
lemma castIsize_64 (x : Int) (h1 : -(2 ^ 63) ≤ x) (h2 : x < 2 ^ 63) :
    castIsize 64 x = x := by
  have h64 : (2 : Int) ^ 64 = 18446744073709551616 := by norm_num
  have h63 : (2 : Int) ^ 63 = 9223372036854775808 := by norm_num
  rw [h63] at h1 h2
  unfold castIsize
  rw [show (64 : Nat) - 1 = 63 from rfl, h64, h63]
  by_cases hx : 0 ≤ x
  · rw [Int.emod_eq_of_lt hx (by omega), if_pos (by omega)]
  · have hmod : x % 18446744073709551616 = x + 18446744073709551616 := by
      have hm := Int.add_mul_emod_self_left x 18446744073709551616 1
      rw [mul_one] at hm
      rw [← hm, Int.emod_eq_of_lt (by omega) (by omega)]
    rw [hmod, if_neg (by omega)]
    omega

/-- The `Start` arm of `start_seek`, as an equation. -/
lemma start_seek_start_eq (w : Nat) (h : IncludeDirFile) (s : Nat) :
    h.start_seek w (.Start s) = ({ h with index := castUsize w s }, .ok ()) := rfl

/-- The `End` arm of `start_seek`, as an equation. -/
lemma start_seek_end_eq (w : Nat) (h : IncludeDirFile) (e : Int) :
    h.start_seek w (.End e) =
      match checked_add_signed w h.inner.contents.length (castIsize w e) with
      | some i => ({ h with index := i }, .ok ())
      | none => (h, .error invalidSeekError) := rfl

/-- The `Current` arm of `start_seek`, as an equation. -/
lemma start_seek_current_eq (w : Nat) (h : IncludeDirFile) (c : Int) :
    h.start_seek w (.Current c) =
      match checked_add_signed w h.index (castIsize w c) with
      | some i => ({ h with index := i }, .ok ())
      | none => (h, .error invalidSeekError) := rfl

/-- C3: on the 64-bit target (where the `u64`/`i64` casts preserve values),
`Start o` sets the cursor to `o` with no bounds check against the content
length; `End d` sets it to `length + d` and `Current d` to `index + d`, each
failing exactly when the exact signed sum is negative or exceeds the
representable offset range `[0, 2^64)`. -/
theorem start_seek_spec (h : IncludeDirFile) (o : Nat) (d : Int)
    (ho : o < 2 ^ 64) (hd : -(2 ^ 63) ≤ d) (hd' : d < 2 ^ 63) :
    h.start_seek 64 (.Start o) = ({ h with index := o }, .ok ()) ∧
    (h.start_seek 64 (.End d) =
      if 0 ≤ (h.inner.contents.length : Int) + d ∧
         (h.inner.contents.length : Int) + d < 2 ^ 64
      then ({ h with index := ((h.inner.contents.length : Int) + d).toNat }, .ok ())
      else (h, .error invalidSeekError)) ∧
    (h.start_seek 64 (.Current d) =
      if 0 ≤ (h.index : Int) + d ∧ (h.index : Int) + d < 2 ^ 64
      then ({ h with index := ((h.index : Int) + d).toNat }, .ok ())
      else (h, .error invalidSeekError)) := by
  refine ⟨?_, ?_, ?_⟩
  · rw [start_seek_start_eq, castUsize_64 o ho]
  · rw [start_seek_end_eq, castIsize_64 d hd hd']
    unfold checked_add_signed
    by_cases hc : 0 ≤ (h.inner.contents.length : Int) + d ∧
        (h.inner.contents.length : Int) + d < 2 ^ 64
    · rw [if_pos hc, if_pos hc]
    · rw [if_neg hc, if_neg hc]
  · rw [start_seek_current_eq, castIsize_64 d hd hd']
    unfold checked_add_signed
    by_cases hc : 0 ≤ (h.index : Int) + d ∧ (h.index : Int) + d < 2 ^ 64
    · rw [if_pos hc, if_pos hc]
    · rw [if_neg hc, if_neg hc]

/-- C3 witness: on the concrete handle, `Start 7` places the cursor at 7
(past the 4-byte content, with no bounds check). -/
theorem start_seek_spec_witness :
    exHandle.start_seek 64 (.Start 7) = ({ exHandle with index := 7 }, .ok ()) :=
  (start_seek_spec exHandle 7 (-1) (by norm_num) (by norm_num) (by norm_num)).1

/-- C6: whenever a seek fails, the returned handle — cursor included — is
exactly the handle before the call, so the consumer may retry; the cursor is
mutated only by a successful seek. -/
theorem seek_failure_preserves_handle (w : Nat) (h : IncludeDirFile)
    (pos : SeekFrom) (e : IoError) (herr : (h.start_seek w pos).2 = .error e) :
    (h.start_seek w pos).1 = h := by
  cases pos with
  | Start s => simp [IncludeDirFile.start_seek] at herr
  | End d =>
    rcases hc : checked_add_signed w h.inner.contents.length (castIsize w d) with _ | i
    · simp [IncludeDirFile.start_seek, hc]
    · rw [start_seek_end_eq, hc] at herr
      exact absurd herr (by simp)
  | Current c =>
    rcases hc : checked_add_signed w h.index (castIsize w c) with _ | i
    · simp [IncludeDirFile.start_seek, hc]
    · rw [start_seek_current_eq, hc] at herr
      exact absurd herr (by simp)

/-- C6 witness: seeking `Current (-1)` from cursor 0 fails and leaves the
handle unchanged. -/
theorem seek_failure_preserves_handle_witness :
    (exHandle.start_seek 64 (.Current (-1))).1 = exHandle :=
  seek_failure_preserves_handle 64 exHandle (.Current (-1)) invalidSeekError (by
    rw [start_seek_current_eq,
      show checked_add_signed 64 exHandle.index (castIsize 64 (-1)) = none from by decide])

/-- C8: every seek failure carries the invalid-seek error kind (the code's
`InvalidInput`, the spec's `InvalidSeek`) and the negative-or-overflowing
message — never any other kind. -/
theorem seek_error_invalid (w : Nat) (h : IncludeDirFile) (pos : SeekFrom)
    (e : IoError) (herr : (h.start_seek w pos).2 = .error e) :
    e.kind = .InvalidInput ∧
    e.msg = "invalid seek to a negative or overflowing position" := by
  have he : e = invalidSeekError := by
    cases pos with
    | Start s => simp [IncludeDirFile.start_seek] at herr
    | End d =>
      rcases hc : checked_add_signed w h.inner.contents.length (castIsize w d) with _ | i
      · rw [start_seek_end_eq, hc] at herr
        simpa using herr.symm
      · rw [start_seek_end_eq, hc] at herr
        exact absurd herr (by simp)
    | Current c =>
      rcases hc : checked_add_signed w h.index (castIsize w c) with _ | i
      · rw [start_seek_current_eq, hc] at herr
        simpa using herr.symm
      · rw [start_seek_current_eq, hc] at herr
        exact absurd herr (by simp)
  subst he
  exact ⟨rfl, rfl⟩

/-- C8 witness: seeking `End (-5)` on 4-byte content fails with the
invalid-seek kind and message. -/
theorem seek_error_invalid_witness :
    invalidSeekError.kind = .InvalidInput ∧
    invalidSeekError.msg = "invalid seek to a negative or overflowing position" :=
  seek_error_invalid 64 exHandle (.End (-5)) invalidSeekError (by
    rw [start_seek_end_eq,
      show checked_add_signed 64 exHandle.inner.contents.length (castIsize 64 (-5)) = none
        from by decide])

/-- C10: `Start o` never fails for any `u64` offset `o` — it performs no
checked arithmetic, storing `o` reduced modulo the `w`-bit cursor width; on
targets with `64 ≤ w` the stored position is `o` itself. -/
theorem seek_start_truncating (w : Nat) (h : IncludeDirFile) (o : Nat)
    (ho : o < 2 ^ 64) :
    h.start_seek w (.Start o) = ({ h with index := o % 2 ^ w }, .ok ()) ∧
    (64 ≤ w → (h.start_seek w (.Start o)).1.index = o) := by
  constructor
  · rfl
  · intro hw
    have hlt : o < 2 ^ w := lt_of_lt_of_le ho (Nat.pow_le_pow_right (by norm_num) hw)
    rw [start_seek_start_eq]
    exact Nat.mod_eq_of_lt hlt

/-- C10 witness: on a 16-bit cursor, `Start 70000` succeeds and stores
`70000 mod 65536 = 4464` instead of failing. -/
theorem seek_start_truncating_witness :
    exHandle.start_seek 16 (.Start 70000) =
      ({ exHandle with index := 70000 % 2 ^ 16 }, .ok ()) ∧
    70000 % 2 ^ 16 = 4464 :=
  ⟨(seek_start_truncating 16 exHandle 70000 (by norm_num)).1, by norm_num⟩

/-- A read at or past end-of-content fills nothing and leaves the handle
unchanged. -/
lemma poll_read_eof (h : IncludeDirFile) (cap : Nat)
    (hge : h.inner.contents.length ≤ h.index) :
    h.poll_read cap = ([], h) := by
  simp [IncludeDirFile.poll_read, hge]

/-- A list of positive length is not empty, as a boolean. -/
lemma isEmpty_false_of_length_pos (l : List Nat) (hl : 0 < l.length) :
    l.isEmpty = false := by
  cases l with
  | nil => simp at hl
  | cons a t => rfl

/-- Splitting a suffix of `l` at the chunk a capacity-`cap` read delivers
reassembles the suffix. -/
lemma take_append_drop_chunk (l : List Nat) (i cap : Nat) :
    (l.drop i).take cap ++ l.drop (i + min cap (l.length - i)) = l.drop i := by
  by_cases hcle : cap ≤ l.length - i
  · rw [min_eq_left hcle]
    have hdd : l.drop (i + cap) = (l.drop i).drop cap := by
      rw [List.drop_drop]
    rw [hdd, List.take_append_drop]
  · rw [min_eq_right (le_of_not_le hcle)]
    have h1 : (l.drop i).take cap = l.drop i :=
      List.take_of_length_le (by rw [List.length_drop]; omega)
    have h2 : l.drop (i + (l.length - i)) = [] := List.drop_eq_nil_of_le (by omega)
    rw [h1, h2, List.append_nil]

/-- Driving `poll_read` with any positive buffer capacity until a zero-byte
read collects exactly the content's suffix starting at the cursor, given
enough fuel (one unit per read suffices since every non-final read fills at
least one byte). -/
lemma read_to_end_drain (cap : Nat) (hcap : 0 < cap) :
    ∀ (fuel : Nat) (h : IncludeDirFile),
      h.inner.contents.length - h.index ≤ fuel →
      IncludeDirFile.read_to_end fuel cap h = h.inner.contents.drop h.index := by
  intro fuel
  induction fuel with
  | zero =>
    intro h hf
    rw [List.drop_eq_nil_of_le (by omega)]
    rfl
  | succ n ih =>
    intro h hf
    by_cases hlt : h.index < h.inner.contents.length
    · have hnot : ¬h.inner.contents.length ≤ h.index := Nat.not_le.mpr hlt
      have hpr : h.poll_read cap =
          ((h.inner.contents.drop h.index).take cap,
           { h with
              index := h.index + ((h.inner.contents.drop h.index).take cap).length }) := by
        simp [IncludeDirFile.poll_read, hnot]
      have hlen : ((h.inner.contents.drop h.index).take cap).length
          = min cap (h.inner.contents.length - h.index) := by
        rw [List.length_take, List.length_drop]
      have hne : ((h.inner.contents.drop h.index).take cap).isEmpty = false :=
        isEmpty_false_of_length_pos _ (by rw [hlen]; omega)
      have step : IncludeDirFile.read_to_end (n + 1) cap h =
          (h.inner.contents.drop h.index).take cap ++
            IncludeDirFile.read_to_end n cap
              { h with
                 index := h.index + ((h.inner.contents.drop h.index).take cap).length } := by
        show (if (h.poll_read cap).1.isEmpty then []
              else (h.poll_read cap).1 ++
                IncludeDirFile.read_to_end n cap (h.poll_read cap).2) = _
        rw [hpr]
        simp [hne]
      have hcond : h.inner.contents.length -
          (h.index + ((h.inner.contents.drop h.index).take cap).length) ≤ n := by
        rw [hlen]
        omega
      rw [step, ih _ hcond]
      show (h.inner.contents.drop h.index).take cap ++
          h.inner.contents.drop
            (h.index + ((h.inner.contents.drop h.index).take cap).length) =
          h.inner.contents.drop h.index
      rw [hlen]
      exact take_append_drop_chunk h.inner.contents h.index cap
    · have hge : h.inner.contents.length ≤ h.index := Nat.not_lt.mp hlt
      rw [List.drop_eq_nil_of_le hge]
      show (if (h.poll_read cap).1.isEmpty then []
            else (h.poll_read cap).1 ++
              IncludeDirFile.read_to_end n cap (h.poll_read cap).2) = []
      rw [poll_read_eof h cap hge]
      simp

/-- C7: seeking `Start o` with `o ≤ L` then reading to end-of-stream yields
exactly the content's suffix from `o`; seeking `Start o` with `o > L`
succeeds and every subsequent read fills zero bytes without error. -/
theorem seek_then_read_round_trip (h : IncludeDirFile) (o cap fuel : Nat)
    (hcap : 0 < cap) (ho : o < 2 ^ 64)
    (hfuel : h.inner.contents.length ≤ fuel) :
    (o ≤ h.inner.contents.length →
      (h.start_seek 64 (.Start o)).2 = .ok () ∧
      IncludeDirFile.read_to_end fuel cap (h.start_seek 64 (.Start o)).1 =
        h.inner.contents.drop o) ∧
    (h.inner.contents.length < o →
      (h.start_seek 64 (.Start o)).2 = .ok () ∧
      ∀ k, ((h.start_seek 64 (.Start o)).1).poll_read k =
        ([], (h.start_seek 64 (.Start o)).1)) := by
  have hseek : h.start_seek 64 (.Start o) = ({ h with index := o }, .ok ()) := by
    rw [start_seek_start_eq, castUsize_64 o ho]
  constructor
  · intro hle
    rw [hseek]
    refine ⟨rfl, ?_⟩
    exact read_to_end_drain cap hcap fuel { h with index := o }
      (by show h.inner.contents.length - o ≤ fuel; omega)
  · intro hgt
    rw [hseek]
    refine ⟨rfl, ?_⟩
    intro k
    exact poll_read_eof { h with index := o } k
      (by show h.inner.contents.length ≤ o; omega)

/-- C7 witness: on the 4-byte file, seeking to offset 1 then draining reads
of capacity 2 yields the suffix from offset 1. -/
theorem seek_then_read_round_trip_witness :
    (exHandle.start_seek 64 (.Start 1)).2 = .ok () ∧
    IncludeDirFile.read_to_end 4 2 (exHandle.start_seek 64 (.Start 1)).1 =
      exHandle.inner.contents.drop 1 :=
  (seek_then_read_round_trip exHandle 1 2 4 (by norm_num) (by norm_num)
    (by decide)).1 (by decide)

/-- C9: a handle's own `metadata` always succeeds (it constructs `Ok`
unconditionally), wrapping the handle's owned file as a `File`-kind entry,
so the resulting snapshot is never a directory. -/
theorem file_metadata_total (h : IncludeDirFile) :
    h.metadata = .ok { entry := .file h.inner } ∧
    (IncludeDirMetadata.mk (.file h.inner)).is_dir = false :=
  ⟨rfl, rfl⟩

end TowerHttp.IncludeDir
